import Mathlib

set_option maxRecDepth 8192

/-!
Shallow embedding of the cyxchat application core (C sources under
`lib/src/`) and proofs about the spec's testable properties.

Conventions of the embedding:
  * C byte buffers and NUL-terminated strings are `List Nat`, one entry
    per byte (values < 256 where the source guarantees it).
  * Machine-integer wraparound is made explicit where it can matter
    (`u64sub` below models `uint64_t` subtraction).
  * External cryptographic primitives (libsodium's `crypto_sign_verify_detached`,
    `crypto_generichash`/BLAKE2b) are abstracted as function parameters:
    the surrounding logic is embedded faithfully, the primitive itself is
    an opaque argument of the definitions and theorems.
  * Fixed-capacity slot arrays reached by linear first-match scan are
    `List`s: slot order is list order, "first empty slot" is `++ [x]`,
    first-match lookup is `List.find?`.
-/

/-- `uint64_t` subtraction `a - b` (two's-complement wraparound). -/
def u64sub (a b : Nat) : Nat :=
  (a + 2 ^ 64 - b % 2 ^ 64) % 2 ^ 64

theorem u64sub_of_le (a b : Nat) (hb : b ≤ a) (ha : a < 2 ^ 64) : u64sub a b = a - b := by
  unfold u64sub
  rw [Nat.mod_eq_of_lt (lt_of_le_of_lt hb ha)]
  have h1 : a + 2 ^ 64 - b = (a - b) + 2 ^ 64 := by omega
  rw [h1, Nat.add_mod_right, Nat.mod_eq_of_lt (by omega)]

/-- ASCII `tolower` as used by the source (C locale). -/
def tolowerByte (c : Nat) : Nat :=
  if 65 ≤ c ∧ c ≤ 90 then c + 32 else c

/-- ASCII `isalpha` (C locale). -/
def isalphaByte (c : Nat) : Bool :=
  decide ((65 ≤ c ∧ c ≤ 90) ∨ (97 ≤ c ∧ c ≤ 122))

/-- ASCII `isdigit`. -/
def isdigitByte (c : Nat) : Bool :=
  decide (48 ≤ c ∧ c ≤ 57)

/-- ASCII `isalnum` (C locale). -/
def isalnumByte (c : Nat) : Bool :=
  isalphaByte c || isdigitByte c

/-- A byte is a lowercase ASCII letter or a non-letter (i.e. not uppercase). -/
def isNotUpperByte (c : Nat) : Bool :=
  decide (¬ (65 ≤ c ∧ c ≤ 90))

/- ============================================================
   dns.c — name validation, normalization (cyxchat_dns_validate_name,
   cyxchat_dns_normalize_name)
   ============================================================ -/

def CYXCHAT_DNS_MAX_NAME : Nat := 63

def CYXCHAT_DNS_GOSSIP_HOPS : Nat := 3

/-- The bytes of `CYXCHAT_DNS_SUFFIX` `".cyx"`. -/
def cyxSuffix : List Nat := [46, 99, 121, 120]

/-- The case-insensitive suffix test of `cyxchat_dns_normalize_name`
(`'.'` then `c|C`, `y|Y`, `x|X`). -/
def isCyxSuffixCI (s : List Nat) : Bool :=
  match s with
  | [a, b, c, d] =>
    decide (a = 46 ∧ (b = 99 ∨ b = 67) ∧ (c = 121 ∨ c = 89) ∧ (d = 120 ∨ d = 88))
  | _ => false

/-- Character-scan loop of `cyxchat_dns_validate_name`: walks the first
`len` characters tracking `prev_underscore`; at the end rejects a trailing
underscore. -/
def validateChars : List Nat → Bool → Bool
  | [], prevUnderscore => !prevUnderscore
  | c :: rest, prevUnderscore =>
    if isalnumByte c then validateChars rest false
    else if c = 95 then
      if prevUnderscore then false else validateChars rest true
    else false

/-- `cyxchat_dns_validate_name` (dns.c): strips one exact `".cyx"` suffix
(case-sensitive `strcmp`), then checks length 3..63, leading letter, and
the character rules. -/
def cyxchat_dns_validate_name (name : List Nat) : Bool :=
  let len := name.length
  let stripped :=
    if len > 4 ∧ name.drop (len - 4) = cyxSuffix then name.take (len - 4) else name
  if stripped.length < 3 ∨ stripped.length > CYXCHAT_DNS_MAX_NAME then false
  else
    match stripped with
    | [] => false
    | c :: _ => isalphaByte c && validateChars stripped false

/-- `cyxchat_dns_normalize_name` (dns.c): strips one `".cyx"` suffix
matched case-insensitively (only when the input is longer than 4), checks
the result fits the output buffer (`len >= out_len` fails), and lowercases.
`none` models the error returns. -/
def cyxchat_dns_normalize_name (name : List Nat) (out_len : Nat) : Option (List Nat) :=
  if out_len = 0 then none
  else
    let len := name.length
    let len2 := if len > 4 ∧ isCyxSuffixCI (name.drop (len - 4)) then len - 4 else len
    if len2 ≥ out_len then none
    else some ((name.take len2).map tolowerByte)

/- Spec-side definitions for claim C6 (written from the spec's §4.5 words,
to be compared with the source-translated functions above). -/

/-- Modelled from the spec (§4.5 name rules, for comparison): characters
`[A-Za-z0-9_]`, length 3..63, first char alphabetic, no consecutive
underscores, no trailing underscore. -/
def specNameRules (s : List Nat) : Prop :=
  3 ≤ s.length ∧ s.length ≤ 63 ∧
  (∀ c ∈ s, isalnumByte c = true ∨ c = 95) ∧
  isalphaByte (s.headD 0) = true ∧
  (∀ p ∈ s.zip s.tail, ¬(p.1 = 95 ∧ p.2 = 95)) ∧
  s.getLast? ≠ some 95

instance (s : List Nat) : Decidable (specNameRules s) :=
  inferInstanceAs (Decidable
    (3 ≤ s.length ∧ s.length ≤ 63 ∧
     (∀ c ∈ s, isalnumByte c = true ∨ c = 95) ∧
     isalphaByte (s.headD 0) = true ∧
     (∀ p ∈ s.zip s.tail, ¬(p.1 = 95 ∧ p.2 = 95)) ∧
     s.getLast? ≠ some 95))

/-- Stripping one exact (case-sensitive) `".cyx"` suffix, as
`cyxchat_dns_validate_name` does (only when the name is longer than 4). -/
def stripCyxCS (name : List Nat) : List Nat :=
  if name.length > 4 ∧ name.drop (name.length - 4) = cyxSuffix then
    name.take (name.length - 4)
  else name

/-- Stripping one case-insensitive `".cyx"` suffix, as
`cyxchat_dns_normalize_name` does. -/
def stripCyxCI (name : List Nat) : List Nat :=
  if name.length > 4 ∧ isCyxSuffixCI (name.drop (name.length - 4)) then
    name.take (name.length - 4)
  else name

/- ============================================================
   dns.c — records, signature data, gossip handling
   (verify_record_signature, handle_register)
   ============================================================ -/

/-- `cyxchat_dns_record_t` (the fields used by the gossip logic). -/
structure DnsRecord where
  name : List Nat
  node_id : List Nat
  pubkey : List Nat
  signature : List Nat
  timestamp : Nat
  ttl : Nat
deriving DecidableEq

/-- Big-endian 8-byte encoding of a `uint64_t` timestamp, as built by the
`for (i = 7; i >= 0; i--)` loops of `sign_record` / `verify_record_signature`. -/
def be64 (ts : Nat) : List Nat :=
  [ts >>> 56 % 256, ts >>> 48 % 256, ts >>> 40 % 256, ts >>> 32 % 256,
   ts >>> 24 % 256, ts >>> 16 % 256, ts >>> 8 % 256, ts % 256]

/-- The byte string signed and verified for a DNS record:
`name ‖ pubkey ‖ timestamp_be64`. -/
def record_signed_data (r : DnsRecord) : List Nat :=
  r.name ++ r.pubkey ++ be64 r.timestamp

/-- `verify_record_signature` (dns.c): checks the Ed25519 signature over
`name ‖ pubkey ‖ timestamp_be64` against the record's own `pubkey` field.
The primitive `crypto_sign_verify_detached` is abstracted as `verify
signature message pubkey`. -/
def verify_record_signature (verify : List Nat → List Nat → List Nat → Bool)
    (r : DnsRecord) : Bool :=
  verify r.signature (record_signed_data r) r.pubkey

/-- `dns_cache_entry_t` (valid entries only; invalid slots are absence). -/
structure DnsCacheEntry where
  record : DnsRecord
  cached_at : Nat
  hops : Nat
deriving DecidableEq

def CYXCHAT_DNS_CACHE_SIZE : Nat := 128

/-- `find_cache_entry` (dns.c): first valid entry whose record name matches. -/
def find_cache_entry (cache : List DnsCacheEntry) (name : List Nat) :
    Option DnsCacheEntry :=
  cache.find? (fun e => e.record.name = name)

/-- Replacing the first cache entry of a given name (storing into the slot
returned by `find_cache_entry`). -/
def cache_replace_first (cache : List DnsCacheEntry) (name : List Nat)
    (e : DnsCacheEntry) : List DnsCacheEntry :=
  match cache with
  | [] => []
  | x :: rest =>
    if x.record.name = name then e :: rest
    else x :: cache_replace_first rest name e

/-- Index of the entry with the (first) minimal `cached_at`, as found by
`alloc_cache_entry`'s eviction scan. -/
def oldest_cache_index (cache : List DnsCacheEntry) : Nat :=
  match cache with
  | [] => 0
  | x :: rest =>
    let i := oldest_cache_index rest
    match rest.get? i with
    | none => 0
    | some y => if y.cached_at < x.cached_at then i + 1 else 0

/-- `alloc_cache_entry` followed by storing `e` (handle_register's cache
install path when no entry of that name exists): first empty slot if the
cache is not full, else evict the entry with the oldest `cached_at`. -/
def cache_alloc_store (cache : List DnsCacheEntry) (e : DnsCacheEntry) :
    List DnsCacheEntry :=
  if cache.length < CYXCHAT_DNS_CACHE_SIZE then cache ++ [e]
  else cache.set (oldest_cache_index cache) e

/-- Re-gossip step of `handle_register`: broadcast the record with
`hops + 1` iff `hops < CYXCHAT_DNS_GOSSIP_HOPS`.  A broadcast is recorded
as the `(record, hops)` content of the serialized `DNS_REGISTER`. -/
def dns_regossip (record : DnsRecord) (hops : Nat) : List (DnsRecord × Nat) :=
  if hops < CYXCHAT_DNS_GOSSIP_HOPS then [(record, hops + 1)] else []

/-- `handle_register` (dns.c), on an already-deserialized record: verify
the signature (drop on failure); drop when a cached record of the same
name has an equal-or-newer timestamp; otherwise install the record (into
the existing slot when present, else into a freshly allocated slot) and
re-gossip while hops remain.  Returns the new cache and the list of
broadcast messages. -/
def handle_register (verify : List Nat → List Nat → List Nat → Bool)
    (cache : List DnsCacheEntry) (record : DnsRecord) (hops : Nat) (now : Nat) :
    List DnsCacheEntry × List (DnsRecord × Nat) :=
  if ¬ verify_record_signature verify record then (cache, [])
  else
    match find_cache_entry cache record.name with
    | some existing =>
      if existing.record.timestamp ≥ record.timestamp then (cache, [])
      else
        (cache_replace_first cache record.name ⟨record, now, hops⟩,
         dns_regossip record hops)
    | none =>
      (cache_alloc_store cache ⟨record, now, hops⟩, dns_regossip record hops)

/- ============================================================
   dns.c — crypto-names (base32_encode, cyxchat_dns_crypto_name,
   cyxchat_dns_is_crypto_name)
   ============================================================ -/

/-- The bytes of `BASE32_CHARS` `"abcdefghijklmnopqrstuvwxyz234567"`. -/
def BASE32_CHARS : List Nat :=
  [97, 98, 99, 100, 101, 102, 103, 104, 105, 106, 107, 108, 109, 110, 111,
   112, 113, 114, 115, 116, 117, 118, 119, 120, 121, 122, 50, 51, 52, 53, 54, 55]

/-- Inner `while (bits >= 5 && j < out_len - 1)` loop of `base32_encode`:
emits 5-bit groups from the top of `buffer`. `jmax` is `out_len - 1`. -/
def b32emit (buffer : Nat) (bits j jmax : Nat) (acc : List Nat) :
    List Nat × Nat × Nat :=
  if h : 5 ≤ bits ∧ j < jmax then
    b32emit buffer (bits - 5) (j + 1) jmax
      (acc ++ [BASE32_CHARS.getD ((buffer >>> (bits - 5)) &&& 0x1F) 0])
  else (acc, bits, j)
termination_by bits
decreasing_by omega

/-- Outer `while (i < len && j < out_len - 1)` loop of `base32_encode`;
`buffer` is a `uint32_t`.  Returns `(out, buffer, bits, j)`. -/
def b32loop (data : List Nat) (buffer : Nat) (bits j jmax : Nat)
    (acc : List Nat) : List Nat × Nat × Nat × Nat :=
  match data with
  | [] => (acc, buffer, bits, j)
  | d :: rest =>
    if j < jmax then
      let buffer' := ((buffer <<< 8) ||| d) % 2 ^ 32
      let r := b32emit buffer' (bits + 8) j jmax acc
      b32loop rest buffer' r.2.1 r.2.2 jmax r.1
    else (acc, buffer, bits, j)

/-- `base32_encode` (dns.c): encodes `data` into at most `out_len - 1`
base32 characters, emitting a final partial 5-bit group when bits remain. -/
def base32_encode (data : List Nat) (out_len : Nat) : List Nat :=
  match out_len with
  | 0 => []
  | jmax + 1 =>
    let r := b32loop data 0 0 0 jmax []
    let buffer := r.2.1
    let bits := r.2.2.1
    let j := r.2.2.2
    if 0 < bits ∧ j < jmax then
      r.1 ++ [BASE32_CHARS.getD ((buffer <<< (5 - bits)) &&& 0x1F) 0]
    else r.1

def CYXCHAT_DNS_CRYPTO_NAME_LEN : Nat := 8

/-- `cyxchat_dns_crypto_name` (dns.c): BLAKE2b-hash the 32-byte public
key, take the first 5 bytes of the hash and base32-encode them into an
8-character name (the 16-byte output buffer of the C API).  The BLAKE2b
primitive (`crypto_generichash` with 32-byte output) is abstracted as the
`blake2b` parameter. -/
def cyxchat_dns_crypto_name (blake2b : List Nat → List Nat)
    (pubkey : List Nat) : List Nat :=
  base32_encode ((blake2b pubkey).take 5) 16

/-- `cyxchat_dns_is_crypto_name` (dns.c): strip one `".cyx"` suffix
(case-sensitive), require exactly 8 characters, all base32
(`[a-z2-7]` after `tolower`). -/
def cyxchat_dns_is_crypto_name (name : List Nat) : Bool :=
  let len := name.length
  let len2 :=
    if len > 4 ∧ name.drop (len - 4) = cyxSuffix then len - 4 else len
  if len2 ≠ CYXCHAT_DNS_CRYPTO_NAME_LEN then false
  else
    (name.take len2).all fun ch =>
      let c := tolowerByte ch
      decide ((97 ≤ c ∧ c ≤ 122) ∨ (50 ≤ c ∧ c ≤ 55))

/- ============================================================
   Supporting lemmas: base32 / crypto-name (claim C8)
   ============================================================ -/

theorem b32_char_bound (i : Nat) :
    (97 ≤ (BASE32_CHARS[i &&& 31]?.getD 0) ∧ (BASE32_CHARS[i &&& 31]?.getD 0) ≤ 122) ∨
    (50 ≤ (BASE32_CHARS[i &&& 31]?.getD 0) ∧ (BASE32_CHARS[i &&& 31]?.getD 0) ≤ 55) := by
  have h : i &&& 31 < 32 := Nat.lt_of_le_of_lt Nat.and_le_right (by norm_num)
  revert h
  generalize i &&& 31 = k
  intro h
  interval_cases k <;> decide

theorem base32_encode_five_len (b0 b1 b2 b3 b4 : Nat) :
    (base32_encode [b0, b1, b2, b3, b4] 16).length = 8 := by
  simp [base32_encode, b32loop, b32emit]

theorem base32_encode_five_mem (b0 b1 b2 b3 b4 : Nat) :
    ∀ c ∈ base32_encode [b0, b1, b2, b3, b4] 16,
      (97 ≤ c ∧ c ≤ 122) ∨ (50 ≤ c ∧ c ≤ 55) := by
  simp [base32_encode, b32loop, b32emit]
  refine ⟨?_, ?_, ?_, ?_, ?_, ?_, ?_, ?_⟩ <;> exact b32_char_bound _

theorem is_crypto_name_of_charset (l : List Nat) (hlen : l.length = 8)
    (hmem : ∀ c ∈ l, (97 ≤ c ∧ c ≤ 122) ∨ (50 ≤ c ∧ c ≤ 55)) :
    cyxchat_dns_is_crypto_name l = true := by
  match l, hlen with
  | [c0, c1, c2, c3, c4, c5, c6, c7], _ =>
    have h0 := hmem c0 (by simp)
    have h1 := hmem c1 (by simp)
    have h2 := hmem c2 (by simp)
    have h3 := hmem c3 (by simp)
    have h4 := hmem c4 (by simp)
    have h5 := hmem c5 (by simp)
    have h6 := hmem c6 (by simp)
    have h7 := hmem c7 (by simp)
    have hc4 : ¬ c4 = 46 := by omega
    simp [cyxchat_dns_is_crypto_name, cyxSuffix, CYXCHAT_DNS_CRYPTO_NAME_LEN,
          tolowerByte, hc4]
    refine ⟨?_, ?_, ?_, ?_, ?_, ?_, ?_, ?_⟩ <;> split_ifs <;> omega

/-- Claim C8: `crypto_name(pk)` is a pure deterministic function of the
public key (a Lean function of the abstracted BLAKE2b hash and `pk`)
producing exactly 8 characters over `[a-z2-7]`, and
`is_crypto_name(crypto_name(pk))` returns true. -/
theorem crypto_name_deterministic (blake2b : List Nat → List Nat)
    (pubkey : List Nat) (h5 : 5 ≤ (blake2b pubkey).length) :
    (cyxchat_dns_crypto_name blake2b pubkey).length = 8 ∧
    (∀ c ∈ cyxchat_dns_crypto_name blake2b pubkey,
      (97 ≤ c ∧ c ≤ 122) ∨ (50 ≤ c ∧ c ≤ 55)) ∧
    cyxchat_dns_is_crypto_name (cyxchat_dns_crypto_name blake2b pubkey) = true := by
  obtain ⟨b0, b1, b2, b3, b4, rest, hl⟩ :
      ∃ b0 b1 b2 b3 b4 rest,
        blake2b pubkey = b0 :: b1 :: b2 :: b3 :: b4 :: rest := by
    match hres : blake2b pubkey with
    | b0 :: b1 :: b2 :: b3 :: b4 :: rest => exact ⟨b0, b1, b2, b3, b4, rest, rfl⟩
    | [] => rw [hres] at h5; simp at h5
    | [_] => rw [hres] at h5; simp at h5
    | [_, _] => rw [hres] at h5; simp at h5
    | [_, _, _] => rw [hres] at h5; simp at h5
    | [_, _, _, _] => rw [hres] at h5; simp at h5
  unfold cyxchat_dns_crypto_name
  rw [hl]
  have ht : (b0 :: b1 :: b2 :: b3 :: b4 :: rest).take 5 = [b0, b1, b2, b3, b4] := rfl
  rw [ht]
  exact ⟨base32_encode_five_len b0 b1 b2 b3 b4,
         base32_encode_five_mem b0 b1 b2 b3 b4,
         is_crypto_name_of_charset _ (base32_encode_five_len b0 b1 b2 b3 b4)
           (base32_encode_five_mem b0 b1 b2 b3 b4)⟩

/-- Witness for claim C8 at a concrete hash function and public key. -/
theorem crypto_name_deterministic_witness :
    (cyxchat_dns_crypto_name (fun _ => List.range 32) (List.replicate 32 0)).length = 8 ∧
    (∀ c ∈ cyxchat_dns_crypto_name (fun _ => List.range 32) (List.replicate 32 0),
      (97 ≤ c ∧ c ≤ 122) ∨ (50 ≤ c ∧ c ≤ 55)) ∧
    cyxchat_dns_is_crypto_name
      (cyxchat_dns_crypto_name (fun _ => List.range 32) (List.replicate 32 0)) = true :=
  crypto_name_deterministic (fun _ => List.range 32) (List.replicate 32 0) (by simp)

/- ============================================================
   Claims C2, C3 — DNS gossip monotonicity and depth bound
   ============================================================ -/

theorem find_cache_replace_first (cache : List DnsCacheEntry) (name : List Nat)
    (e w : DnsCacheEntry) (hname : e.record.name = name)
    (hfound : find_cache_entry cache name = some w) :
    find_cache_entry (cache_replace_first cache name e) name = some e := by
  induction cache with
  | nil => simp [find_cache_entry] at hfound
  | cons x rest ih =>
    by_cases hx : x.record.name = name
    · simp [cache_replace_first, find_cache_entry, hx, hname]
    · simp only [cache_replace_first, if_neg hx]
      unfold find_cache_entry at hfound ⊢
      rw [List.find?_cons_of_neg _ (by simp [hx])] at hfound ⊢
      exact ih hfound

/-- Claim C2: on an incoming `DNS_REGISTER` whose record name is already
cached, the handler replaces the cached entry iff the incoming timestamp
is strictly greater and the Ed25519 signature over
`name ‖ pubkey ‖ timestamp_be64` verifies under the record's pubkey;
otherwise the cache is unchanged. -/
theorem dns_register_timestamp_monotonic
    (verify : List Nat → List Nat → List Nat → Bool)
    (cache : List DnsCacheEntry) (rNew : DnsRecord) (hops now : Nat)
    (rOld : DnsCacheEntry)
    (hfind : find_cache_entry cache rNew.name = some rOld) :
    ((verify rNew.signature (rNew.name ++ rNew.pubkey ++ be64 rNew.timestamp)
        rNew.pubkey = true ∧ rOld.record.timestamp < rNew.timestamp) →
      ((handle_register verify cache rNew hops now).1
         = cache_replace_first cache rNew.name ⟨rNew, now, hops⟩ ∧
       find_cache_entry (handle_register verify cache rNew hops now).1 rNew.name
         = some ⟨rNew, now, hops⟩)) ∧
    (¬ (verify rNew.signature (rNew.name ++ rNew.pubkey ++ be64 rNew.timestamp)
        rNew.pubkey = true ∧ rOld.record.timestamp < rNew.timestamp) →
      (handle_register verify cache rNew hops now).1 = cache) := by
  have hsig :
      verify_record_signature verify rNew
        = verify rNew.signature (rNew.name ++ rNew.pubkey ++ be64 rNew.timestamp)
            rNew.pubkey := rfl
  constructor
  · rintro ⟨hv, hts⟩
    have hrep : (handle_register verify cache rNew hops now).1
        = cache_replace_first cache rNew.name ⟨rNew, now, hops⟩ := by
      unfold handle_register
      rw [hsig, hv, hfind]
      simp [Nat.not_le.mpr hts, Nat.not_lt.mpr (Nat.le_of_lt hts)]
    refine ⟨hrep, ?_⟩
    rw [hrep]
    exact find_cache_replace_first cache rNew.name ⟨rNew, now, hops⟩ rOld rfl hfind
  · intro hno
    unfold handle_register
    rw [hsig, hfind]
    by_cases hv : verify rNew.signature
        (rNew.name ++ rNew.pubkey ++ be64 rNew.timestamp) rNew.pubkey = true
    · have hts : rOld.record.timestamp ≥ rNew.timestamp := by
        rcases Nat.lt_or_ge rOld.record.timestamp rNew.timestamp with h | h
        · exact absurd ⟨hv, h⟩ hno
        · exact h
      simp [hv, hts]
    · rw [Bool.not_eq_true] at hv
      rw [hv]
      simp

/-- Witness for claim C2 at a concrete cache, record and verifier. -/
theorem dns_register_timestamp_monotonic_witness :
    (( fun _ _ _ => true : List Nat → List Nat → List Nat → Bool)
        (DnsRecord.mk [97] [] [] [] 5 60).signature
        ((DnsRecord.mk [97] [] [] [] 5 60).name
          ++ (DnsRecord.mk [97] [] [] [] 5 60).pubkey
          ++ be64 (DnsRecord.mk [97] [] [] [] 5 60).timestamp)
        (DnsRecord.mk [97] [] [] [] 5 60).pubkey = true ∧
      (DnsCacheEntry.mk (DnsRecord.mk [97] [] [] [] 1 60) 0 0).record.timestamp
        < (DnsRecord.mk [97] [] [] [] 5 60).timestamp) ∧
      ((handle_register (fun _ _ _ => true)
          [DnsCacheEntry.mk (DnsRecord.mk [97] [] [] [] 1 60) 0 0]
          (DnsRecord.mk [97] [] [] [] 5 60) 0 7).1
         = cache_replace_first [DnsCacheEntry.mk (DnsRecord.mk [97] [] [] [] 1 60) 0 0]
             (DnsRecord.mk [97] [] [] [] 5 60).name
             ⟨DnsRecord.mk [97] [] [] [] 5 60, 7, 0⟩ ∧
       find_cache_entry
         (handle_register (fun _ _ _ => true)
           [DnsCacheEntry.mk (DnsRecord.mk [97] [] [] [] 1 60) 0 0]
           (DnsRecord.mk [97] [] [] [] 5 60) 0 7).1
         (DnsRecord.mk [97] [] [] [] 5 60).name
         = some ⟨DnsRecord.mk [97] [] [] [] 5 60, 7, 0⟩) :=
  ⟨by decide,
   (dns_register_timestamp_monotonic (fun _ _ _ => true)
     [DnsCacheEntry.mk (DnsRecord.mk [97] [] [] [] 1 60) 0 0]
     (DnsRecord.mk [97] [] [] [] 5 60) 0 7
     (DnsCacheEntry.mk (DnsRecord.mk [97] [] [] [] 1 60) 0 0) (by decide)).1
     (by decide)⟩

/-- Claim C3: the handler re-broadcasts a verified fresh record with hop
count `h + 1` iff `h + 1 ≤ 3`; a record received with `h = 3` (or more)
is never re-broadcast. -/
theorem dns_gossip_depth_bound
    (verify : List Nat → List Nat → List Nat → Bool)
    (cache : List DnsCacheEntry) (rNew : DnsRecord) (hops now : Nat)
    (hsig : verify_record_signature verify rNew = true)
    (hfresh : ∀ e, find_cache_entry cache rNew.name = some e →
      e.record.timestamp < rNew.timestamp) :
    ((handle_register verify cache rNew hops now).2 = [(rNew, hops + 1)]
        ↔ hops + 1 ≤ CYXCHAT_DNS_GOSSIP_HOPS) ∧
    (¬ hops + 1 ≤ CYXCHAT_DNS_GOSSIP_HOPS →
      (handle_register verify cache rNew hops now).2 = []) := by
  have hre : (handle_register verify cache rNew hops now).2
      = dns_regossip rNew hops := by
    unfold handle_register
    rw [hsig]
    match hfind : find_cache_entry cache rNew.name with
    | none => simp
    | some e =>
      have hts := hfresh e hfind
      simp [Nat.not_le.mpr hts]
  rw [hre]
  unfold dns_regossip CYXCHAT_DNS_GOSSIP_HOPS
  constructor
  · by_cases hh : hops < 3
    · simp [hh]; omega
    · simp [hh]; omega
  · intro hh
    rw [if_neg (by omega)]

/- ============================================================
   Claim C6 — name normalization and validation
   ============================================================ -/

theorem validateChars_eq_true_iff (s : List Nat) (pu : Bool) :
    validateChars s pu = true ↔
      ((∀ c ∈ s, isalnumByte c = true ∨ c = 95) ∧
       (∀ p ∈ s.zip s.tail, ¬(p.1 = 95 ∧ p.2 = 95)) ∧
       (pu = true → s.head? ≠ some 95) ∧
       s.getLast? ≠ some 95 ∧
       (s = [] → pu = false)) := by
  induction s generalizing pu with
  | nil => cases pu <;> simp [validateChars]
  | cons c rest ih =>
    by_cases hal : isalnumByte c = true
    · have hc95 : c ≠ 95 := by
        intro h; rw [h] at hal; exact absurd hal (by decide)
      cases rest with
      | nil => cases pu <;> simp [validateChars, hal, hc95]
      | cons d ds =>
        rw [show validateChars (c :: d :: ds) pu = validateChars (d :: ds) false from by
              rw [validateChars, if_pos hal]]
        rw [ih false]
        simp [hal, hc95, List.getLast?_cons_cons]
    · by_cases hc : c = 95
      · subst hc
        cases pu with
        | true => simp [validateChars, hal]
        | false =>
          cases rest with
          | nil => simp [validateChars, hal]
          | cons d ds =>
            rw [show validateChars (95 :: d :: ds) false = validateChars (d :: ds) true from by
                  rw [validateChars, if_neg (by simpa using hal), if_pos rfl]; rfl]
            rw [ih true]
            simp [hal, List.getLast?_cons_cons]
            tauto
      · rw [show validateChars (c :: rest) pu = false from by
              rw [validateChars, if_neg (by simpa using hal), if_neg hc]]
        constructor
        · intro h; exact absurd h (by decide)
        · rintro ⟨hall, -, -, -, -⟩
          rcases hall c (by simp) with h1 | h1
          · exact absurd h1 hal
          · exact absurd h1 hc

/-- The length/first-letter/character-scan core of `cyxchat_dns_validate_name`,
applied after suffix stripping. -/
def validate_core (s : List Nat) : Bool :=
  if s.length < 3 ∨ s.length > CYXCHAT_DNS_MAX_NAME then false
  else
    match s with
    | [] => false
    | c :: _ => isalphaByte c && validateChars s false

theorem validate_eq_core (name : List Nat) :
    cyxchat_dns_validate_name name = validate_core (stripCyxCS name) := rfl

theorem validate_core_iff (s : List Nat) :
    validate_core s = true ↔ specNameRules s := by
  unfold validate_core specNameRules CYXCHAT_DNS_MAX_NAME
  by_cases hlen : s.length < 3 ∨ s.length > 63
  · rw [if_pos hlen]
    constructor
    · intro h; exact absurd h (by decide)
    · rintro ⟨h3, h63, -⟩; omega
  · rw [if_neg hlen]
    push_neg at hlen
    match s, hlen with
    | c :: rest, hlen =>
      rw [Bool.and_eq_true, validateChars_eq_true_iff]
      constructor
      · rintro ⟨ha, hall, hchain, -, hlast, -⟩
        exact ⟨hlen.1, hlen.2, hall, ha, hchain, hlast⟩
      · rintro ⟨-, -, hall, ha, hchain, hlast⟩
        exact ⟨ha, hall, hchain, by simp, hlast, by simp⟩

theorem isNotUpper_tolower (x : Nat) : isNotUpperByte (tolowerByte x) = true := by
  simp only [isNotUpperByte, tolowerByte, decide_eq_true_eq]
  split_ifs <;> omega

/-- Claim C6 (amended): `normalize(n)` is the lowercase form of `n` with at
most one `.cyx` suffix stripped (case-insensitively) — so it is lowercase,
but a doubled suffix leaves one `.cyx` — and `validate` accepts `n` iff the
form of `n` obtained by stripping one exact case-sensitive `".cyx"` suffix
satisfies the §4.5 rules. -/
theorem dns_name_normalize_validate (name : List Nat) (out_len : Nat) :
    (∀ r, cyxchat_dns_normalize_name name out_len = some r →
       r = (stripCyxCI name).map tolowerByte ∧ ∀ c ∈ r, isNotUpperByte c = true) ∧
    (cyxchat_dns_validate_name name = true ↔ specNameRules (stripCyxCS name)) := by
  constructor
  · intro r hr
    unfold cyxchat_dns_normalize_name at hr
    by_cases h0 : out_len = 0
    · rw [if_pos h0] at hr; exact absurd hr (by simp)
    · rw [if_neg h0] at hr
      simp only at hr
      have hmain : r = (stripCyxCI name).map tolowerByte := by
        unfold stripCyxCI
        by_cases hcond : name.length > 4 ∧ isCyxSuffixCI (name.drop (name.length - 4))
        · rw [if_pos hcond] at hr ⊢
          by_cases hfit : name.length - 4 ≥ out_len
          · rw [if_pos hfit] at hr; exact absurd hr (by simp)
          · rw [if_neg hfit] at hr
            exact (Option.some_inj.mp hr).symm
        · rw [if_neg hcond] at hr ⊢
          by_cases hfit : name.length ≥ out_len
          · rw [if_pos hfit] at hr; exact absurd hr (by simp)
          · rw [if_neg hfit] at hr
            rw [← Option.some_inj.mp hr, List.take_length]
      refine ⟨hmain, ?_⟩
      rw [hmain]
      intro c hc
      rw [List.mem_map] at hc
      obtain ⟨x, -, rfl⟩ := hc
      exact isNotUpper_tolower x
  · rw [validate_eq_core]
    exact validate_core_iff _

/-- Counterexample to claim C6 as stated: `normalize("ab.cyx.cyx")` still
ends in `.cyx` (only one suffix is stripped), and `validate("abc.CYX")`
rejects although the unsuffixed lowercase form `"abc"` satisfies the §4.5
rules (validate strips the suffix case-sensitively). -/
theorem dns_name_claim_counterexample :
    (cyxchat_dns_normalize_name [97, 98, 46, 99, 121, 120, 46, 99, 121, 120] 64
       = some [97, 98, 46, 99, 121, 120] ∧
     List.drop 2 [97, 98, 46, 99, 121, 120] = cyxSuffix) ∧
    (cyxchat_dns_validate_name [97, 98, 99, 46, 67, 89, 88] = false ∧
     specNameRules ((stripCyxCI [97, 98, 99, 46, 67, 89, 88]).map tolowerByte)) := by
  decide

/-- Witness for claim C6 (amended) at `name = "Bob.CYX"`, `out_len = 64`. -/
theorem dns_name_normalize_validate_witness :
    ([98, 111, 98] = (stripCyxCI [66, 111, 98, 46, 67, 89, 88]).map tolowerByte ∧
     ∀ c ∈ [98, 111, 98], isNotUpperByte c = true) ∧
    (cyxchat_dns_validate_name [66, 111, 98, 46, 67, 89, 88] = true ↔
      specNameRules (stripCyxCS [66, 111, 98, 46, 67, 89, 88])) :=
  ⟨(dns_name_normalize_validate [66, 111, 98, 46, 67, 89, 88] 64).1
      [98, 111, 98] (by decide),
   (dns_name_normalize_validate [66, 111, 98, 46, 67, 89, 88] 64).2⟩

/-- Witness for claim C3 at a concrete record with `hops = 0` on an empty
cache. -/
theorem dns_gossip_depth_bound_witness :
    ((handle_register (fun _ _ _ => true) []
        (DnsRecord.mk [97] [] [] [] 5 60) 0 7).2
      = [(DnsRecord.mk [97] [] [] [] 5 60, 0 + 1)]
      ↔ 0 + 1 ≤ CYXCHAT_DNS_GOSSIP_HOPS) ∧
    (¬ 0 + 1 ≤ CYXCHAT_DNS_GOSSIP_HOPS →
      (handle_register (fun _ _ _ => true) []
        (DnsRecord.mk [97] [] [] [] 5 60) 0 7).2 = []) :=
  dns_gossip_depth_bound (fun _ _ _ => true) []
    (DnsRecord.mk [97] [] [] [] 5 60) 0 7 (by decide)
    (by intro e he; simp [find_cache_entry] at he)

/- ============================================================
   contact.c — contact list (cyxchat_contact_add / remove / find),
   QR sharing (cyxchat_contact_generate_qr / parse_qr);
   claims C9 and C10
   ============================================================ -/

structure Contact where
  node_id : List Nat
  public_key : List Nat
  display_name : List Nat
  added_at : Nat
deriving DecidableEq

def CYXCHAT_MAX_CONTACTS : Nat := 256

inductive cyxchat_error where
  | ok | err_null | err_memory | err_invalid | err_not_found | err_exists
  | err_full | err_crypto | err_network | err_timeout
deriving DecidableEq

def cyxchat_contact_find (l : List Contact) (id : List Nat) : Option Contact :=
  l.find? (fun c => c.node_id = id)

def cyxchat_contact_add (l : List Contact) (id pk dn : List Nat) (now : Nat) :
    cyxchat_error × List Contact :=
  if (cyxchat_contact_find l id).isSome then (.err_exists, l)
  else if l.length ≥ CYXCHAT_MAX_CONTACTS then (.err_full, l)
  else (.ok, l ++ [⟨id, pk, dn, now⟩])

def contact_default : Contact := ⟨[], [], [], 0⟩

def cyxchat_contact_remove (l : List Contact) (id : List Nat) :
    cyxchat_error × List Contact :=
  match l.findIdx? (fun c => c.node_id = id) with
  | none => (.err_not_found, l)
  | some i => (.ok, (l.set i (l.getLastD contact_default)).dropLast)

theorem cons_getLastD_dropLast_perm {α : Type} (y : α) (ys : List α) (d : α) :
    List.Perm (((y :: ys).getLastD d) :: (y :: ys).dropLast) (y :: ys) := by
  induction ys generalizing y d with
  | nil => simp
  | cons z zs ih =>
    have h1 : (y :: z :: zs).getLastD d = (z :: zs).getLastD y :=
      List.getLastD_cons d y (z :: zs)
    have h2 : (y :: z :: zs).dropLast = y :: (z :: zs).dropLast := rfl
    rw [h1, h2]
    exact ((List.Perm.swap y _ _).trans (List.Perm.cons y (ih z y)))

theorem set_getLastD_dropLast_perm {α : Type} (l : List α) (i : Nat) (d : α)
    (hi : i < l.length) :
    List.Perm ((l.set i (l.getLastD d)).dropLast) (l.eraseIdx i) := by
  induction l generalizing i d with
  | nil => simp at hi
  | cons x xs ih =>
    cases i with
    | zero =>
      cases xs with
      | nil => simp
      | cons y ys =>
        have h1 : (x :: y :: ys).set 0 ((x :: y :: ys).getLastD d)
            = ((x :: y :: ys).getLastD d) :: y :: ys := rfl
        rw [h1]
        have h2 : (x :: y :: ys).getLastD d = (y :: ys).getLastD x :=
          List.getLastD_cons d x (y :: ys)
        rw [h2]
        have h3 : (((y :: ys).getLastD x) :: y :: ys).dropLast
            = ((y :: ys).getLastD x) :: (y :: ys).dropLast := rfl
        rw [h3]
        exact cons_getLastD_dropLast_perm y ys x
    | succ n =>
      have hn : n < xs.length := by simpa using hi
      have hxs : xs ≠ [] := by
        intro h; rw [h] at hn; simp at hn
      have hgl : (x :: xs).getLastD d = xs.getLastD x := List.getLastD_cons d x xs
      have h1 : (x :: xs).set (n + 1) ((x :: xs).getLastD d)
          = x :: xs.set n (xs.getLastD x) := by
        rw [hgl]; rfl
      rw [h1]
      have hset : xs.set n (xs.getLastD x) ≠ [] := by
        intro h
        have := congrArg List.length h
        simp at this
        rw [this] at hn; simp at hn
      have h2 : (x :: xs.set n (xs.getLastD x)).dropLast
          = x :: (xs.set n (xs.getLastD x)).dropLast := by
        cases hh : xs.set n (xs.getLastD x) with
        | nil => exact absurd hh hset
        | cons w ws => rw [List.dropLast_cons₂]
      rw [h2]
      have h3 : (x :: xs).eraseIdx (n + 1) = x :: xs.eraseIdx n := rfl
      rw [h3]
      exact List.Perm.cons x (ih n x hn)

theorem contact_remove_perm (l : List Contact) (id : List Nat) (c : Contact)
    (hfind : cyxchat_contact_find l id = some c) :
    (cyxchat_contact_remove l id).1 = .ok ∧
    List.Perm (cyxchat_contact_remove l id).2 (l.erase c) := by
  induction l with
  | nil => simp [cyxchat_contact_find] at hfind
  | cons x xs ih =>
    by_cases hx : x.node_id = id
    · have hcx : cyxchat_contact_find (x :: xs) id = some x := by
        unfold cyxchat_contact_find
        rw [List.find?_cons_of_pos _ (by simp [hx])]
      rw [hcx] at hfind
      have hc : c = x := (Option.some_inj.mp hfind).symm
      subst hc
      have hidx : (c :: xs).findIdx? (fun e => e.node_id = id) = some 0 := by
        rw [List.findIdx?_cons]
        simp [hx]
      unfold cyxchat_contact_remove
      rw [hidx]
      refine ⟨rfl, ?_⟩
      rw [List.erase_cons_head]
      have hp := set_getLastD_dropLast_perm (c :: xs) 0 contact_default (by simp)
      simpa using hp
    · have hfind' : cyxchat_contact_find xs id = some c := by
        unfold cyxchat_contact_find at hfind ⊢
        rwa [List.find?_cons_of_neg _ (by simp [hx])] at hfind
      have hcid : c.node_id = id := by
        have hpc := List.find?_some hfind'
        simpa using hpc
      have hxc : ¬ x = c := fun h => hx (by rw [h, hcid])
      obtain ⟨ok2, perm2⟩ := ih hfind'
      match hfi : xs.findIdx? (fun e => e.node_id = id) with
      | none =>
        rw [List.findIdx?_eq_none_iff] at hfi
        have hmem := List.mem_of_find?_eq_some hfind'
        have := hfi c hmem
        simp [hcid] at this
      | some i =>
        have hilt : i < xs.length := by
          have := (List.findIdx?_eq_some_iff_getElem.mp hfi).1
          exact this
        have hidx : (x :: xs).findIdx? (fun e => e.node_id = id) = some (i + 1) := by
          rw [List.findIdx?_cons]
          simp [hx, hfi]
        unfold cyxchat_contact_remove at perm2 ⊢
        rw [hidx]
        rw [hfi] at perm2
        refine ⟨rfl, ?_⟩
        have hp := set_getLastD_dropLast_perm (x :: xs) (i + 1) contact_default
          (by simpa using Nat.succ_lt_succ hilt)
        have he : (x :: xs).eraseIdx (i + 1) = x :: xs.eraseIdx i := rfl
        rw [he] at hp
        have hp2 := set_getLastD_dropLast_perm xs i contact_default hilt
        have hx_erase : (x :: xs).erase c = x :: xs.erase c := by
          rw [List.erase_cons_tail]
          simp [hxc]
        rw [hx_erase]
        exact hp.trans (List.Perm.cons x ((hp2.symm.trans perm2)))

theorem contact_find_none_not_mem (l : List Contact) (id : List Nat)
    (h : cyxchat_contact_find l id = none) : id ∉ l.map Contact.node_id := by
  unfold cyxchat_contact_find at h
  rw [List.find?_eq_none] at h
  intro hmem
  rw [List.mem_map] at hmem
  obtain ⟨c, hc, hcid⟩ := hmem
  have := h c hc
  simp [hcid] at this

/-- Claim C10: contact-list operations keep at most one entry per node id:
add on an existing id returns CYXCHAT_ERR_EXISTS leaving the list
unchanged, add on a fresh id appends exactly that contact, and remove
deletes exactly the matching entry (count drops by one, every other
contact stays present). -/
theorem contact_list_invariant (l : List Contact) (id pk dn : List Nat) (now : Nat)
    (hnodup : (l.map Contact.node_id).Nodup) :
    ((cyxchat_contact_find l id).isSome →
       cyxchat_contact_add l id pk dn now = (.err_exists, l)) ∧
    ((cyxchat_contact_add l id pk dn now).2.map Contact.node_id).Nodup ∧
    (∀ c, cyxchat_contact_find l id = some c →
       (cyxchat_contact_remove l id).1 = .ok ∧
       (cyxchat_contact_remove l id).2.length = l.length - 1 ∧
       List.Perm (cyxchat_contact_remove l id).2 (l.erase c) ∧
       ((cyxchat_contact_remove l id).2.map Contact.node_id).Nodup) := by
  refine ⟨?_, ?_, ?_⟩
  · intro h
    unfold cyxchat_contact_add
    rw [if_pos h]
  · unfold cyxchat_contact_add
    by_cases h1 : (cyxchat_contact_find l id).isSome
    · rw [if_pos h1]; exact hnodup
    · rw [if_neg h1]
      by_cases h2 : l.length ≥ CYXCHAT_MAX_CONTACTS
      · rw [if_pos h2]; exact hnodup
      · rw [if_neg h2]
        have hnone : cyxchat_contact_find l id = none :=
          Option.not_isSome_iff_eq_none.mp h1
      
        have hnm := contact_find_none_not_mem l id hnone
        simp only [List.map_append, List.map_cons, List.map_nil]
        rw [List.nodup_append]
        refine ⟨hnodup, by simp, ?_⟩
        intro a ha hmem
        simp at hmem
        rw [hmem] at ha
        exact hnm ha
  · intro c hfind
    obtain ⟨hok, hperm⟩ := contact_remove_perm l id c hfind
    have hc_mem : c ∈ l := List.mem_of_find?_eq_some hfind
    refine ⟨hok, ?_, hperm, ?_⟩
    · rw [hperm.length_eq, List.length_erase_of_mem hc_mem]
    · have hperm_map := hperm.map Contact.node_id
      have hsub : (l.erase c).Sublist l := List.erase_sublist c l
      have hnd : ((l.erase c).map Contact.node_id).Nodup :=
        List.Nodup.sublist (hsub.map Contact.node_id) hnodup
      exact (hperm_map.nodup_iff).mpr hnd

def hex_chars_list : List Nat :=
  [48, 49, 50, 51, 52, 53, 54, 55, 56, 57, 97, 98, 99, 100, 101, 102]

def byte_to_hex (b : Nat) : List Nat :=
  [hex_chars_list.getD (b / 16) 0, hex_chars_list.getD (b % 16) 0]

def bytes_to_hex : List Nat → List Nat
  | [] => []
  | b :: rest => byte_to_hex b ++ bytes_to_hex rest

def qr_scheme : List Nat :=
  [99, 121, 120, 99, 104, 97, 116, 58, 47, 47, 97, 100, 100, 47]

def cyxchat_contact_generate_qr (node_id public_key : List Nat) (out_len : Nat) :
    Option (List Nat) :=
  if out_len < 150 then none
  else some (qr_scheme ++ bytes_to_hex node_id ++ [47] ++ bytes_to_hex public_key)

def hex_char_to_nibble (c : Nat) : Option Nat :=
  if 48 ≤ c ∧ c ≤ 57 then some (c - 48)
  else if 97 ≤ c ∧ c ≤ 102 then some (c - 97 + 10)
  else if 65 ≤ c ∧ c ≤ 70 then some (c - 65 + 10)
  else none

def parse_hex_bytes : Nat → List Nat → Option (List Nat × List Nat)
  | 0, s => some ([], s)
  | n + 1, c1 :: c2 :: rest =>
    match hex_char_to_nibble c1, hex_char_to_nibble c2 with
    | some hi, some lo =>
      match parse_hex_bytes n rest with
      | some (bs, r) => some (((hi <<< 4) ||| lo) :: bs, r)
      | none => none
    | _, _ => none
  | _ + 1, _ => none

def cyxchat_contact_parse_qr (qr : List Nat) : Option (List Nat × List Nat) :=
  if qr.take qr_scheme.length ≠ qr_scheme then none
  else
    let d := qr.drop qr_scheme.length
    if d.length < 64 then none
    else
      match parse_hex_bytes 32 d with
      | none => none
      | some (node_id, rest1) =>
        match rest1 with
        | 47 :: rest2 =>
          if rest2.length < 64 then none
          else
            match parse_hex_bytes 32 rest2 with
            | none => none
            | some (pubkey, _) => some (node_id, pubkey)
        | _ => none

theorem hex_byte_roundtrip : ∀ b < 256,
    hex_char_to_nibble (hex_chars_list[b / 16]?.getD 0) = some (b / 16) ∧
    hex_char_to_nibble (hex_chars_list[b % 16]?.getD 0) = some (b % 16) ∧
    ((b / 16) <<< 4 ||| b % 16) = b := by decide

theorem bytes_to_hex_length (bs : List Nat) :
    (bytes_to_hex bs).length = 2 * bs.length := by
  induction bs with
  | nil => rfl
  | cons b rest ih => simp [bytes_to_hex, byte_to_hex, ih]; omega

theorem parse_bytes_to_hex (bs rest : List Nat) (hb : ∀ b ∈ bs, b < 256) :
    parse_hex_bytes bs.length (bytes_to_hex bs ++ rest) = some (bs, rest) := by
  induction bs with
  | nil => rfl
  | cons b t ih =>
    have hb256 := hb b (by simp)
    obtain ⟨h1, h2, h3⟩ := hex_byte_roundtrip b hb256
    have : bytes_to_hex (b :: t) ++ rest
        = hex_chars_list.getD (b / 16) 0 :: hex_chars_list.getD (b % 16) 0 ::
          (bytes_to_hex t ++ rest) := by
      simp [bytes_to_hex, byte_to_hex]
    rw [this]
    show parse_hex_bytes (t.length + 1) _ = _
    simp [parse_hex_bytes, h1, h2, ih (fun x hx => hb x (by simp [hx])), h3]

/-- Claim C9: for every pair of 32-byte values, parsing the QR string
generated for them (cyxchat://add/(node id hex)/(pubkey hex)) succeeds
and returns exactly the original node id and public key. -/
theorem contact_qr_roundtrip (node_id public_key : List Nat) (out_len : Nat)
    (hn : node_id.length = 32) (hp : public_key.length = 32)
    (hnb : ∀ b ∈ node_id, b < 256) (hpb : ∀ b ∈ public_key, b < 256)
    (hout : 150 ≤ out_len) :
    ∃ qr, cyxchat_contact_generate_qr node_id public_key out_len = some qr ∧
      cyxchat_contact_parse_qr qr = some (node_id, public_key) := by
  refine ⟨qr_scheme ++ bytes_to_hex node_id ++ [47] ++ bytes_to_hex public_key,
          ?_, ?_⟩
  · unfold cyxchat_contact_generate_qr
    rw [if_neg (by omega)]
  · unfold cyxchat_contact_parse_qr
    have hassoc : qr_scheme ++ bytes_to_hex node_id ++ [47] ++ bytes_to_hex public_key
        = qr_scheme ++ (bytes_to_hex node_id ++ ([47] ++ bytes_to_hex public_key)) := by
      simp
    rw [hassoc]
    rw [if_neg (by simp)]
    simp only [List.drop_left]
    have hlen : (bytes_to_hex node_id ++ ([47] ++ bytes_to_hex public_key)).length
        = 64 + (1 + 64) := by
      simp [bytes_to_hex_length, hn, hp]
    rw [if_neg (by omega)]
    have hparse1 : parse_hex_bytes 32
        (bytes_to_hex node_id ++ ([47] ++ bytes_to_hex public_key))
        = some (node_id, 47 :: bytes_to_hex public_key) := by
      rw [← hn]
      simpa using parse_bytes_to_hex node_id _ hnb
    rw [hparse1]
    have hlen2 : (bytes_to_hex public_key).length = 64 := by
      simp [bytes_to_hex_length, hp]
    have hnlt : ¬ (bytes_to_hex public_key).length < 64 := by omega
    have hparse2 : parse_hex_bytes 32 (bytes_to_hex public_key)
        = some (public_key, []) := by
      rw [← hp]
      simpa using parse_bytes_to_hex public_key [] hpb
    simp [hnlt, hparse2]

theorem contact_qr_roundtrip_witness :
    ∃ qr, cyxchat_contact_generate_qr (List.range 32)
            ((List.range 32).map (fun i => i + 100)) 150 = some qr ∧
      cyxchat_contact_parse_qr qr
        = some (List.range 32, (List.range 32).map (fun i => i + 100)) :=
  contact_qr_roundtrip (List.range 32) ((List.range 32).map (fun i => i + 100))
    150 (by decide) (by decide) (by decide) (by decide) (by decide)

theorem contact_list_invariant_witness :
    ((cyxchat_contact_find [Contact.mk [1] [2] [] 0] [1]).isSome →
       cyxchat_contact_add [Contact.mk [1] [2] [] 0] [1] [5] [] 3
         = (.err_exists, [Contact.mk [1] [2] [] 0])) ∧
    ((cyxchat_contact_add [Contact.mk [1] [2] [] 0] [1] [5] [] 3).2.map
        Contact.node_id).Nodup ∧
    (∀ c, cyxchat_contact_find [Contact.mk [1] [2] [] 0] [1] = some c →
       (cyxchat_contact_remove [Contact.mk [1] [2] [] 0] [1]).1 = .ok ∧
       (cyxchat_contact_remove [Contact.mk [1] [2] [] 0] [1]).2.length
         = [Contact.mk [1] [2] [] 0].length - 1 ∧
       List.Perm (cyxchat_contact_remove [Contact.mk [1] [2] [] 0] [1]).2
         ([Contact.mk [1] [2] [] 0].erase c) ∧
       ((cyxchat_contact_remove [Contact.mk [1] [2] [] 0] [1]).2.map
           Contact.node_id).Nodup) :=
  contact_list_invariant [Contact.mk [1] [2] [] 0] [1] [5] [] 3 (by decide)

/- ============================================================
   chat.c — fragmentation / reassembly (frag_add_chunk,
   frag_is_complete, frag_reassemble, the fragment branch of
   on_onion_delivery, and the sender split of cyxchat_send_text);
   claim C1
   ============================================================ -/

def FRAG_MAX_CHUNKS : Nat := 32
def FRAG_MAX_TEXT : Nat := 4096
def CYXCHAT_MAX_CHUNK_TEXT : Nat := 80
def CYXCHAT_MAX_TEXT_LEN : Nat := 256

structure cyxchat_frag_entry where
  total_frags : Nat
  received_mask : Nat
  received_count : Nat
  text : List Nat
  chunk_offsets : List Nat
  chunk_lengths : List Nat
deriving DecidableEq

def frag_entry_fresh (total_frags : Nat) : cyxchat_frag_entry :=
  { total_frags := total_frags
    received_mask := 0
    received_count := 0
    text := List.replicate FRAG_MAX_TEXT 0
    chunk_offsets := List.replicate FRAG_MAX_CHUNKS 0
    chunk_lengths := List.replicate FRAG_MAX_CHUNKS 0 }

def buf_write (buf : List Nat) (off : Nat) (src : List Nat) : List Nat :=
  buf.take off ++ src ++ buf.drop (off + src.length)

def frag_add_chunk (e : cyxchat_frag_entry) (frag_idx : Nat) (text : List Nat) :
    cyxchat_frag_entry × Bool :=
  if frag_idx ≥ e.total_frags ∨ frag_idx ≥ FRAG_MAX_CHUNKS then (e, false)
  else if e.received_mask.testBit frag_idx then (e, false)
  else
    let lengths := e.chunk_lengths.set frag_idx text.length
    let off := (lengths.take frag_idx).sum
    let offsets := e.chunk_offsets.set frag_idx off
    if off + text.length > FRAG_MAX_TEXT then
      ({ e with chunk_lengths := lengths, chunk_offsets := offsets }, false)
    else
      ({ e with
          chunk_lengths := lengths
          chunk_offsets := offsets
          text := buf_write e.text off text
          received_mask := e.received_mask ||| (1 <<< frag_idx)
          received_count := e.received_count + 1 }, true)

def frag_is_complete (e : cyxchat_frag_entry) : Bool :=
  e.received_count = e.total_frags

def frag_get_total_length (e : cyxchat_frag_entry) : Nat :=
  (e.chunk_lengths.take e.total_frags).sum

def frag_reassemble (e : cyxchat_frag_entry) : List Nat :=
  let n := frag_get_total_length e
  e.text.take (if n > FRAG_MAX_TEXT then FRAG_MAX_TEXT else n)

def frag_feed (e : cyxchat_frag_entry) : List (Nat × List Nat) → cyxchat_frag_entry
  | [] => e
  | (i, chunk) :: rest => frag_feed (frag_add_chunk e i chunk).1 rest

def frag_complete_payload (e : cyxchat_frag_entry) : List Nat :=
  let total0 := (frag_reassemble e).length
  let total := if total0 > CYXCHAT_MAX_TEXT_LEN then CYXCHAT_MAX_TEXT_LEN else total0
  (total &&& 0xFF) :: ((total >>> 8) &&& 0xFF) :: (frag_reassemble e).take total

def chunk_split_aux : Nat → List Nat → List (List Nat)
  | 0, _ => []
  | _ + 1, [] => []
  | fuel + 1, t =>
    t.take CYXCHAT_MAX_CHUNK_TEXT :: chunk_split_aux fuel (t.drop CYXCHAT_MAX_CHUNK_TEXT)

def chunk_split (t : List Nat) : List (List Nat) :=
  chunk_split_aux t.length t

def cyxchat_send_text_fragments (text : List Nat) : List (Nat × Nat × List Nat) :=
  let chunks := chunk_split text
  (List.range chunks.length).map (fun i => (i, chunks.length, chunks.getD i []))

def fragTestText : List Nat := (List.range 200).map (fun i => i % 250 + 1)


/-- `frag_add_chunk` on a fragment whose bit is already set in
`received_mask` is a no-op returning 0 (the duplicate is silently
ignored). -/
theorem frag_add_chunk_duplicate (e : cyxchat_frag_entry) (i : Nat)
    (chunk : List Nat) (h1 : i < e.total_frags) (h2 : i < FRAG_MAX_CHUNKS)
    (hbit : e.received_mask.testBit i = true) :
    frag_add_chunk e i chunk = (e, false) := by
  unfold frag_add_chunk
  rw [if_neg (by omega), if_pos hbit]

/-- Claim C1, evaluated at the spec's own scenario B (a 200-byte text in
three fragments arriving in order 2,0,1): reassembly IS reported complete
and yields a 200-byte body, but the body is chunk0 ++ chunk1 followed by
40 zero bytes — chunk 2's data was overwritten because `frag_add_chunk`
computes each chunk's offset from the chunk lengths received SO FAR while
`frag_reassemble` copies the buffer linearly.  The queued payload carries
the correct 2-byte little-endian length prefix `[200, 0]` but not the
original text.  Duplicates are, as claimed, ignored (last conjunct). -/
theorem frag_out_of_order_loses_data :
    chunk_split fragTestText
      = [fragTestText.take 80, (fragTestText.drop 80).take 80,
         fragTestText.drop 160] ∧
    (frag_is_complete (frag_feed (frag_entry_fresh 3)
        [(2, fragTestText.drop 160), (0, fragTestText.take 80),
         (1, (fragTestText.drop 80).take 80)]) = true) ∧
    (frag_reassemble (frag_feed (frag_entry_fresh 3)
        [(2, fragTestText.drop 160), (0, fragTestText.take 80),
         (1, (fragTestText.drop 80).take 80)])).length = 200 ∧
    frag_reassemble (frag_feed (frag_entry_fresh 3)
        [(2, fragTestText.drop 160), (0, fragTestText.take 80),
         (1, (fragTestText.drop 80).take 80)])
      = fragTestText.take 160 ++ List.replicate 40 0 ∧
    frag_reassemble (frag_feed (frag_entry_fresh 3)
        [(2, fragTestText.drop 160), (0, fragTestText.take 80),
         (1, (fragTestText.drop 80).take 80)]) ≠ fragTestText ∧
    frag_complete_payload (frag_feed (frag_entry_fresh 3)
        [(2, fragTestText.drop 160), (0, fragTestText.take 80),
         (1, (fragTestText.drop 80).take 80)])
      = 200 :: 0 :: (fragTestText.take 160 ++ List.replicate 40 0) ∧
    frag_add_chunk (frag_feed (frag_entry_fresh 3)
        [(2, fragTestText.drop 160), (0, fragTestText.take 80),
         (1, (fragTestText.drop 80).take 80)]) 2 (fragTestText.drop 160)
      = (frag_feed (frag_entry_fresh 3)
        [(2, fragTestText.drop 160), (0, fragTestText.take 80),
         (1, (fragTestText.drop 80).take 80)], false) := by
  refine ⟨by decide, by decide, by decide, by decide, by decide, by decide, ?_⟩
  exact frag_add_chunk_duplicate _ 2 _ (by decide) (by decide) (by decide)

/- ============================================================
connection.c: peer connection table, relay fallback on hole-punch
timeout (C4) and the per-peer Announce throttle (C5).
============================================================ -/


inductive cyxchat_conn_state where
  | disconnected | discovering | connecting | relaying | connected
deriving DecidableEq

structure cyxchat_peer_conn where
  peer_id : List Nat
  state : cyxchat_conn_state
  connected_at : Nat
  last_activity : Nat
  last_keepalive : Nat
  last_announce_sent : Nat
  last_key_exchange : Nat
  is_relayed : Bool
deriving DecidableEq

def CYXCHAT_MAX_PEER_CONNECTIONS : Nat := 32
def CYXCHAT_HOLE_PUNCH_TIMEOUT_MS : Nat := 5000
def CYXCHAT_ANNOUNCE_THROTTLE_MS : Nat := 60000

def find_peer_conn (peers : List cyxchat_peer_conn) (id : List Nat) :
    Option cyxchat_peer_conn :=
  peers.find? (fun p => p.peer_id = id)

def update_peer_conn (peers : List cyxchat_peer_conn) (id : List Nat)
    (f : cyxchat_peer_conn → cyxchat_peer_conn) : List cyxchat_peer_conn :=
  match peers with
  | [] => []
  | p :: rest =>
    if p.peer_id = id then f p :: rest else p :: update_peer_conn rest id f

def set_peer_state (now : Nat) (p : cyxchat_peer_conn) (s : cyxchat_conn_state) :
    cyxchat_peer_conn :=
  if p.state = s then p
  else { p with
          state := s
          connected_at :=
            if s = .connected ∨ s = .relaying then now else p.connected_at }

structure cyxchat_pending_conn where
  peer_id : List Nat
  start_time : Nat
deriving DecidableEq

structure conn_cb_event where
  peer_id : List Nat
  state : cyxchat_conn_state
  result : cyxchat_error
deriving DecidableEq

def conn_poll_pending (relay_ok : List Nat → Bool) (now : Nat)
    (peers : List cyxchat_peer_conn) :
    List cyxchat_pending_conn →
    List cyxchat_peer_conn × List cyxchat_pending_conn × List conn_cb_event
  | [] => (peers, [], [])
  | pnd :: rest =>
    if u64sub now pnd.start_time ≥ CYXCHAT_HOLE_PUNCH_TIMEOUT_MS then
      match find_peer_conn peers pnd.peer_id with
      | some _ =>
        if relay_ok pnd.peer_id then
          let peers2 := update_peer_conn peers pnd.peer_id
            (fun p => { set_peer_state now p .relaying with is_relayed := true })
          let r := conn_poll_pending relay_ok now peers2 rest
          (r.1, r.2.1, ⟨pnd.peer_id, .relaying, .ok⟩ :: r.2.2)
        else
          let peers2 := update_peer_conn peers pnd.peer_id
            (fun p => set_peer_state now p .disconnected)
          let r := conn_poll_pending relay_ok now peers2 rest
          (r.1, r.2.1, ⟨pnd.peer_id, .disconnected, .err_timeout⟩ :: r.2.2)
      | none => conn_poll_pending relay_ok now peers rest
    else
      let r := conn_poll_pending relay_ok now peers rest
      (r.1, pnd :: r.2.1, r.2.2)

theorem find_update_peer_conn_keeps_id (peers : List cyxchat_peer_conn)
    (id : List Nat) (f : cyxchat_peer_conn → cyxchat_peer_conn)
    (hf : ∀ p, (f p).peer_id = p.peer_id) :
    find_peer_conn (update_peer_conn peers id f) id
      = (find_peer_conn peers id).map f := by
  induction peers with
  | nil => simp [find_peer_conn, update_peer_conn]
  | cons p rest ih =>
    by_cases hp : p.peer_id = id
    · unfold update_peer_conn
      rw [if_pos hp]
      unfold find_peer_conn
      rw [List.find?_cons_of_pos _ (by simp [hf p, hp]),
          List.find?_cons_of_pos _ (by simp [hp])]
      rfl
    · unfold update_peer_conn
      rw [if_neg hp]
      unfold find_peer_conn at ih ⊢
      rw [List.find?_cons_of_neg _ (by simp [hp]),
          List.find?_cons_of_neg _ (by simp [hp])]
      exact ih

theorem find_update_peer_conn_ne (peers : List cyxchat_peer_conn)
    (id q : List Nat) (f : cyxchat_peer_conn → cyxchat_peer_conn)
    (hne : q ≠ id) (hf : ∀ p, (f p).peer_id = p.peer_id) :
    find_peer_conn (update_peer_conn peers id f) q = find_peer_conn peers q := by
  induction peers with
  | nil => simp [find_peer_conn, update_peer_conn]
  | cons p rest ih =>
    by_cases hp : p.peer_id = id
    · unfold update_peer_conn
      rw [if_pos hp]
      unfold find_peer_conn
      by_cases hq : p.peer_id = q
      · exact absurd (hq ▸ hp) (by simpa [hq] using hne)
      · rw [List.find?_cons_of_neg _ (by simp [hf p, hp]; exact fun hh => hne (hh ▸ rfl) ),
            List.find?_cons_of_neg _ (by simp [hq])]
  
    · unfold update_peer_conn
      rw [if_neg hp]
      unfold find_peer_conn at ih ⊢
      by_cases hq : p.peer_id = q
      · rw [List.find?_cons_of_pos _ (by simp [hq]),
            List.find?_cons_of_pos _ (by simp [hq])]
      · rw [List.find?_cons_of_neg _ (by simp [hq]),
            List.find?_cons_of_neg _ (by simp [hq])]
        exact ih

/-- Claim C4 (amended): when a pending Connect(peer) request has been
outstanding for at least CYXCHAT_HOLE_PUNCH_TIMEOUT_MS = 5000 ms, poll
asks the relay client for a tunnel; on relay success the peer becomes
Relaying with is_relayed = true and the callback fires with Ok, and on
relay failure the peer becomes Disconnected and the callback is invoked
with a Timeout error (CYXCHAT_ERR_TIMEOUT, not NetworkError); in both
cases the pending record is freed. -/
theorem conn_relay_fallback (relay_ok : List Nat → Bool) (now : Nat)
    (peers : List cyxchat_peer_conn) (pid : List Nat) (start : Nat)
    (conn : cyxchat_peer_conn)
    (hfind : find_peer_conn peers pid = some conn)
    (hstart : start ≤ now) (hnow : now < 2 ^ 64)
    (htimeout : 5000 ≤ now - start) :
    (conn_poll_pending relay_ok now peers [⟨pid, start⟩]).2.1 = [] ∧
    (relay_ok pid = true →
      (conn_poll_pending relay_ok now peers [⟨pid, start⟩]).2.2
        = [⟨pid, .relaying, .ok⟩] ∧
      find_peer_conn (conn_poll_pending relay_ok now peers [⟨pid, start⟩]).1 pid
        = some { set_peer_state now conn .relaying with is_relayed := true }) ∧
    (relay_ok pid = false →
      (conn_poll_pending relay_ok now peers [⟨pid, start⟩]).2.2
        = [⟨pid, .disconnected, .err_timeout⟩] ∧
      find_peer_conn (conn_poll_pending relay_ok now peers [⟨pid, start⟩]).1 pid
        = some (set_peer_state now conn .disconnected)) := by
  have hcond : u64sub now start ≥ CYXCHAT_HOLE_PUNCH_TIMEOUT_MS := by
    rw [u64sub_of_le now start hstart hnow]
    exact htimeout
  have hset_id : ∀ p s, (set_peer_state now p s).peer_id = p.peer_id := by
    intro p s
    unfold set_peer_state
    split_ifs <;> rfl
  unfold conn_poll_pending
  rw [if_pos hcond, hfind]
  by_cases hrel : relay_ok pid
  · rw [if_pos hrel]
    refine ⟨rfl, fun _ => ⟨rfl, ?_⟩, fun hfalse => absurd hrel (by simp [hfalse])⟩
    show find_peer_conn (update_peer_conn peers pid
      (fun p => { set_peer_state now p .relaying with is_relayed := true })) pid = _
    rw [find_update_peer_conn_keeps_id peers pid
      (fun p => { set_peer_state now p .relaying with is_relayed := true })
      (fun p => hset_id p .relaying), hfind]
    rfl
  · rw [if_neg hrel]
    refine ⟨rfl, fun htrue => absurd htrue hrel, fun _ => ⟨rfl, ?_⟩⟩
    show find_peer_conn (update_peer_conn peers pid
      (fun p => set_peer_state now p .disconnected)) pid = _
    rw [find_update_peer_conn_keeps_id peers pid _
      (fun p => hset_id p .disconnected), hfind]
    rfl

/-- Witness for C4 at a concrete table: one Connecting peer [1] whose
pending record started at 0, polled at now = 5000. -/
theorem conn_relay_fallback_witness :
    (conn_poll_pending (fun _ => true) 5000
        [⟨[1], .connecting, 0, 0, 0, 0, 0, false⟩] [⟨[1], 0⟩]).2.1 = [] ∧
    ((fun _ => true : List Nat → Bool) [1] = true →
      (conn_poll_pending (fun _ => true) 5000
          [⟨[1], .connecting, 0, 0, 0, 0, 0, false⟩] [⟨[1], 0⟩]).2.2
        = [⟨[1], .relaying, .ok⟩] ∧
      find_peer_conn (conn_poll_pending (fun _ => true) 5000
          [⟨[1], .connecting, 0, 0, 0, 0, 0, false⟩] [⟨[1], 0⟩]).1 [1]
        = some { set_peer_state 5000 ⟨[1], .connecting, 0, 0, 0, 0, 0, false⟩
                   .relaying with is_relayed := true }) ∧
    ((fun _ => true : List Nat → Bool) [1] = false →
      (conn_poll_pending (fun _ => true) 5000
          [⟨[1], .connecting, 0, 0, 0, 0, 0, false⟩] [⟨[1], 0⟩]).2.2
        = [⟨[1], .disconnected, .err_timeout⟩] ∧
      find_peer_conn (conn_poll_pending (fun _ => true) 5000
          [⟨[1], .connecting, 0, 0, 0, 0, 0, false⟩] [⟨[1], 0⟩]).1 [1]
        = some (set_peer_state 5000 ⟨[1], .connecting, 0, 0, 0, 0, 0, false⟩
                  .disconnected)) :=
  conn_relay_fallback (fun _ => true) 5000
    [⟨[1], .connecting, 0, 0, 0, 0, 0, false⟩] [1] 0
    ⟨[1], .connecting, 0, 0, 0, 0, 0, false⟩ (by decide) (by decide)
    (by decide) (by decide)

/-- Counterexample to C4 as stated: on relay failure the completion
callback receives CYXCHAT_ERR_TIMEOUT, which is a different error code
from CYXCHAT_ERR_NETWORK (the claim says NetworkError). -/
theorem conn_relay_failure_surfaces_timeout_not_network :
    (conn_poll_pending (fun _ => false) 5000
        [⟨[1], .connecting, 0, 0, 0, 0, 0, false⟩] [⟨[1], 0⟩]).2.2
      = [⟨[1], .disconnected, .err_timeout⟩] ∧
    cyxchat_error.err_timeout ≠ cyxchat_error.err_network := by
  decide

theorem find_peer_conn_append_some (peers l2 : List cyxchat_peer_conn)
    (q : List Nat) (c : cyxchat_peer_conn)
    (h : find_peer_conn peers q = some c) :
    find_peer_conn (peers ++ l2) q = some c := by
  induction peers with
  | nil => simp [find_peer_conn] at h
  | cons p rest ih =>
    unfold find_peer_conn at h ih ⊢
    by_cases hp : p.peer_id = q
    · rw [List.find?_cons_of_pos _ (by simp [hp])] at h
      rw [List.cons_append, List.find?_cons_of_pos _ (by simp [hp])]
      exact h
    · rw [List.find?_cons_of_neg _ (by simp [hp])] at h
      rw [List.cons_append, List.find?_cons_of_neg _ (by simp [hp])]
      exact ih h

theorem find_peer_conn_append_none (peers : List cyxchat_peer_conn)
    (x : cyxchat_peer_conn) (q : List Nat)
    (h : find_peer_conn peers q = none) :
    find_peer_conn (peers ++ [x]) q
      = if x.peer_id = q then some x else none := by
  induction peers with
  | nil =>
    unfold find_peer_conn
    by_cases hx : x.peer_id = q
    · rw [List.nil_append, List.find?_cons_of_pos _ (by simp [hx]), if_pos hx]
    · rw [List.nil_append, List.find?_cons_of_neg _ (by simp [hx]), if_neg hx]
      rfl
  | cons p rest ih =>
    unfold find_peer_conn at h ih ⊢
    by_cases hp : p.peer_id = q
    · rw [List.find?_cons_of_pos _ (by simp [hp])] at h
      exact absurd h (by simp)
    · rw [List.find?_cons_of_neg _ (by simp [hp])] at h
      rw [List.cons_append, List.find?_cons_of_neg _ (by simp [hp])]
      exact ih h

theorem mem_update_peer_conn (peers : List cyxchat_peer_conn) (id : List Nat)
    (f : cyxchat_peer_conn → cyxchat_peer_conn) :
    ∀ x ∈ update_peer_conn peers id f, x ∈ peers ∨ ∃ p, p ∈ peers ∧ x = f p := by
  induction peers with
  | nil => simp [update_peer_conn]
  | cons p rest ih =>
    intro x hx
    unfold update_peer_conn at hx
    by_cases hp : p.peer_id = id
    · rw [if_pos hp] at hx
      rcases List.mem_cons.mp hx with h | h
      · exact Or.inr ⟨p, by simp, h⟩
      · exact Or.inl (by simp [h])
    · rw [if_neg hp] at hx
      rcases List.mem_cons.mp hx with h | h
      · exact Or.inl (by simp [h])
      · rcases ih x h with h2 | ⟨p2, hp2, he2⟩
        · exact Or.inl (by simp [h2])
        · exact Or.inr ⟨p2, by simp [hp2], he2⟩

/- on_peer_discovered (connection.c lines 314-362): the announce-relevant
part.  A newly discovered peer gets a fresh record (last_announce_sent = 0,
i.e. never) and, being new, is sent an Announce immediately; a known peer
is sent an Announce only when at least CYXCHAT_ANNOUNCE_THROTTLE_MS have
passed since the last one.  Whenever an Announce goes out,
last_announce_sent is set to now.  The Bool result records whether an
Announce was sent to the peer. -/
/- The record produced by `alloc_peer_conn` for a newly discovered peer:
memset-zeroed, `active`, `peer_id`/`state` filled, `last_announce_sent = 0`
("never sent"). -/
def alloc_fresh_peer (pid : List Nat) : cyxchat_peer_conn :=
  { peer_id := pid, state := .disconnected, connected_at := 0,
    last_activity := 0, last_keepalive := 0, last_announce_sent := 0,
    last_key_exchange := 0, is_relayed := false }

def on_peer_discovered (peers : List cyxchat_peer_conn) (pid : List Nat)
    (now : Nat) : List cyxchat_peer_conn × Bool :=
  match find_peer_conn peers pid with
  | none =>
    if peers.length < CYXCHAT_MAX_PEER_CONNECTIONS then
      (peers ++ [{ alloc_fresh_peer pid with last_announce_sent := now }], true)
    else (peers, false)
  | some conn =>
    if u64sub now conn.last_announce_sent ≥ CYXCHAT_ANNOUNCE_THROTTLE_MS then
      (update_peer_conn peers pid
        (fun p => { p with last_activity := now, last_announce_sent := now }),
       true)
    else
      (update_peer_conn peers pid (fun p => { p with last_activity := now }),
       false)

/- A trace of peer-discovered events: the resulting peer table and the log
of (peer, time) Announce sends. -/
def run_discovery (peers : List cyxchat_peer_conn) :
    List (List Nat × Nat) → List cyxchat_peer_conn × List (List Nat × Nat)
  | [] => (peers, [])
  | (pid, t) :: rest =>
    let r := on_peer_discovered peers pid t
    let rr := run_discovery r.1 rest
    (rr.1, if r.2 then (pid, t) :: rr.2 else rr.2)

theorem run_discovery_throttle_aux (events : List (List Nat × Nat)) :
    ∀ (peers : List cyxchat_peer_conn) (tprev : Nat),
    events.Pairwise (fun a b => a.2 ≤ b.2) →
    (∀ e ∈ events, tprev ≤ e.2) →
    (∀ e ∈ events, e.2 < 2 ^ 64) →
    (∀ p ∈ peers, p.last_announce_sent ≤ tprev) →
    ((run_discovery peers events).2.Pairwise
        (fun a b => a.1 = b.1 → a.2 + 60000 ≤ b.2) ∧
     (∀ b ∈ (run_discovery peers events).2, ∀ conn,
        find_peer_conn peers b.1 = some conn →
        conn.last_announce_sent + 60000 ≤ b.2)) := by
  induction events with
  | nil =>
    intro peers tprev _ _ _ _
    constructor
    · exact List.Pairwise.nil
    · intro b hb
      simp [run_discovery] at hb
  | cons e rest ih =>
    obtain ⟨pid, t⟩ := e
    intro peers tprev hsorted hfirst hbound hpeers
    have hsp := List.pairwise_cons.mp hsorted
    have hhead : ∀ b ∈ rest, t ≤ b.2 := hsp.1
    have hsorted2 := hsp.2
    have hbound2 : ∀ e ∈ rest, e.2 < 2 ^ 64 := fun e he => hbound e (by simp [he])
    have ht64 : t < 2 ^ 64 := hbound (pid, t) (by simp)
    have htprev : tprev ≤ t := hfirst (pid, t) (by simp)
    match hf : find_peer_conn peers pid with
    | none =>
      by_cases hroom : peers.length < CYXCHAT_MAX_PEER_CONNECTIONS
      · have hstep : on_peer_discovered peers pid t
            = (peers ++ [{ alloc_fresh_peer pid with last_announce_sent := t }],
               true) := by
          unfold on_peer_discovered
          rw [hf, if_pos hroom]
        have hpeers2 : ∀ p ∈ peers
              ++ [{ alloc_fresh_peer pid with last_announce_sent := t }],
            p.last_announce_sent ≤ t := by
          intro p hp
          rcases List.mem_append.mp hp with h | h
          · exact le_trans (hpeers p h) htprev
          · simp at h
            rw [h]
        obtain ⟨ihp, ihf⟩ := ih _ t hsorted2 hhead hbound2 hpeers2
        simp only [run_discovery, hstep, if_true]
        constructor
        · rw [List.pairwise_cons]
          refine ⟨?_, ihp⟩
          intro b hb heq
          have heq2 : pid = b.1 := heq
          have hfind2 : find_peer_conn (peers
                ++ [{ alloc_fresh_peer pid with last_announce_sent := t }]) b.1
              = some { alloc_fresh_peer pid with last_announce_sent := t } := by
            rw [← heq2]
            rw [find_peer_conn_append_none peers _ pid hf]
            simp [alloc_fresh_peer]
          have h2 := ihf b hb _ hfind2
          exact h2
        · intro b hb conn hconn
          rcases List.mem_cons.mp hb with hb1 | hb2
          · rw [hb1] at hconn
            have hcc : find_peer_conn peers pid = some conn := hconn
            rw [hf] at hcc
            exact absurd hcc (by simp)
          · have hconn2 := find_peer_conn_append_some peers
              [{ alloc_fresh_peer pid with last_announce_sent := t }] b.1 conn hconn
            exact ihf b hb2 conn hconn2
      · have hstep : on_peer_discovered peers pid t = (peers, false) := by
          unfold on_peer_discovered
          rw [hf, if_neg hroom]
        have hpeers2 : ∀ p ∈ peers, p.last_announce_sent ≤ t :=
          fun p hp => le_trans (hpeers p hp) htprev
        obtain ⟨ihp, ihf⟩ := ih peers t hsorted2 hhead hbound2 hpeers2
        simp only [run_discovery, hstep, if_false]
        exact ⟨ihp, ihf⟩
    | some conn0 =>
      have hlast0 : conn0.last_announce_sent ≤ tprev :=
        hpeers conn0 (List.mem_of_find?_eq_some hf)
      have hid_act : ∀ p : cyxchat_peer_conn,
          ((fun q : cyxchat_peer_conn => { q with last_activity := t }) p).peer_id = p.peer_id :=
        fun p => rfl
      have hid_ann : ∀ p : cyxchat_peer_conn,
          ((fun q : cyxchat_peer_conn => { q with last_activity := t, last_announce_sent := t }) p).peer_id = p.peer_id :=
        fun p => rfl
      by_cases hthr : u64sub t conn0.last_announce_sent
          ≥ CYXCHAT_ANNOUNCE_THROTTLE_MS
      · have hgap : conn0.last_announce_sent + 60000 ≤ t := by
          rw [u64sub_of_le t conn0.last_announce_sent
              (le_trans hlast0 htprev) ht64] at hthr
          have he : CYXCHAT_ANNOUNCE_THROTTLE_MS = 60000 := rfl
          omega
        have hstep : on_peer_discovered peers pid t
            = (update_peer_conn peers pid
                (fun p => { p with last_activity := t, last_announce_sent := t }), true) := by
          simp only [on_peer_discovered, hf]
          exact if_pos hthr
        have hpeers2 : ∀ p ∈ update_peer_conn peers pid
            (fun p => { p with last_activity := t, last_announce_sent := t }),
            p.last_announce_sent ≤ t := by
          intro p hp
          rcases mem_update_peer_conn peers pid _ p hp with h | ⟨p2, _, he⟩
          · exact le_trans (hpeers p h) htprev
          · rw [he]
        obtain ⟨ihp, ihf⟩ := ih _ t hsorted2 hhead hbound2 hpeers2
        simp only [run_discovery, hstep, if_true]
        constructor
        · rw [List.pairwise_cons]
          refine ⟨?_, ihp⟩
          intro b hb heq
          have hfind2 : find_peer_conn (update_peer_conn peers pid
              (fun p => { p with last_activity := t, last_announce_sent := t })) b.1
              = some { conn0 with last_activity := t, last_announce_sent := t } := by
            have heq2 : pid = b.1 := heq
            rw [← heq2]
            rw [find_update_peer_conn_keeps_id peers pid _ hid_ann, hf]
            rfl
          have h2 := ihf b hb _ hfind2
          exact h2
        · intro b hb conn hconn
          rcases List.mem_cons.mp hb with hb1 | hb2
          · have hcc : find_peer_conn peers pid = some conn := by
              rw [hb1] at hconn
              exact hconn
            rw [hf] at hcc
            have hc0 : conn0 = conn := Option.some_inj.mp hcc
            rw [hb1, ← hc0]
            exact hgap
          · by_cases hbp : b.1 = pid
            · have hcc : find_peer_conn peers pid = some conn := by
                rw [hbp] at hconn
                exact hconn
              rw [hf] at hcc
              have hc0 : conn0 = conn := Option.some_inj.mp hcc
              have hfind2 : find_peer_conn (update_peer_conn peers pid
                  (fun p => { p with last_activity := t, last_announce_sent := t })) b.1
                  = some { conn0 with last_activity := t, last_announce_sent := t } := by
                rw [hbp]
                rw [find_update_peer_conn_keeps_id peers pid _ hid_ann, hf]
                rfl
              have h2 : t + 60000 ≤ b.2 := ihf b hb2 _ hfind2
              rw [← hc0]
              omega
            · have hconn2 : find_peer_conn (update_peer_conn peers pid
                  (fun p => { p with last_activity := t, last_announce_sent := t })) b.1 = some conn := by
                rw [find_update_peer_conn_ne peers pid b.1 _ hbp hid_ann]
                exact hconn
              exact ihf b hb2 conn hconn2
      · have hstep : on_peer_discovered peers pid t
            = (update_peer_conn peers pid
                (fun p => { p with last_activity := t }), false) := by
          simp only [on_peer_discovered, hf]
          exact if_neg hthr
        have hpeers2 : ∀ p ∈ update_peer_conn peers pid
            (fun p => { p with last_activity := t }),
            p.last_announce_sent ≤ t := by
          intro p hp
          rcases mem_update_peer_conn peers pid _ p hp with h | ⟨p2, hp2, he⟩
          · exact le_trans (hpeers p h) htprev
          · rw [he]
            exact le_trans (hpeers p2 hp2) htprev
        obtain ⟨ihp, ihf⟩ := ih _ t hsorted2 hhead hbound2 hpeers2
        simp only [run_discovery, hstep, if_false]
        refine ⟨ihp, ?_⟩
        intro b hb conn hconn
        by_cases hbp : b.1 = pid
        · have hcc : find_peer_conn peers pid = some conn := by
            rw [hbp] at hconn
            exact hconn
          rw [hf] at hcc
          have hc0 : conn0 = conn := Option.some_inj.mp hcc
          have hfind2 : find_peer_conn (update_peer_conn peers pid
              (fun p => { p with last_activity := t })) b.1
              = some { conn0 with last_activity := t } := by
            rw [hbp]
            rw [find_update_peer_conn_keeps_id peers pid _ hid_act, hf]
            rfl
          have h2 := ihf b hb _ hfind2
          rw [← hc0]
          exact h2
        · have hconn2 : find_peer_conn (update_peer_conn peers pid
              (fun p => { p with last_activity := t })) b.1 = some conn := by
            rw [find_update_peer_conn_ne peers pid b.1 _ hbp hid_act]
            exact hconn
          exact ihf b hb conn hconn2

/-- Claim C5: starting from an empty peer table, any two Announce sends
logged for the same peer over a time-sorted discovery trace are at least
CYXCHAT_ANNOUNCE_THROTTLE_MS = 60000 ms apart (throttling is measured from
the last attempted announce). -/
theorem discovery_announce_throttle (events : List (List Nat × Nat))
    (hsorted : events.Pairwise (fun a b => a.2 ≤ b.2))
    (hbound : ∀ e ∈ events, e.2 < 2 ^ 64) :
    (run_discovery [] events).2.Pairwise
      (fun a b => a.1 = b.1 → a.2 + 60000 ≤ b.2) :=
  (run_discovery_throttle_aux events [] 0 hsorted (fun e _ => Nat.zero_le e.2)
    hbound (fun p hp => absurd hp (List.not_mem_nil p))).1

/-- Witness for C5 at a concrete trace: three discoveries of peer [1] at
times 0, 1 and 60001 produce announces only at 0 and 60001. -/
theorem discovery_announce_throttle_witness :
    (run_discovery [] [([1], 0), ([1], 1), ([1], 60001)]).2.Pairwise
      (fun a b => a.1 = b.1 → a.2 + 60000 ≤ b.2) :=
  discovery_announce_throttle [([1], 0), ([1], 1), ([1], 60001)]
    (by decide) (by decide)

/- ============================================================
file.c: file-transfer poll loop and stall detection (C7).
============================================================ -/

/- file.h cyxchat_file_state_t -/
inductive cyxchat_file_state where
  | pending | sending | receiving | paused | completed | failed | cancelled
  deriving DecidableEq

/- file.c file_transfer_slot_t, the fields cyxchat_file_poll reads or
writes.  `has_data` stands for `slot->data != NULL`. -/
structure file_transfer_slot where
  active : Bool
  is_outgoing : Bool
  state : cyxchat_file_state
  size : Nat
  chunk_count : Nat
  chunks_done : Nat
  updated_at : Nat
  last_chunk_sent_ms : Nat
  has_data : Bool
  deriving DecidableEq

/- Events the poll loop raises for one slot: a chunk send attempt
(events++ after send_next_chunk), the completion callback, or the error
callback with an error code. -/
inductive file_event where
  | chunk_sent
  | completed
  | error (e : cyxchat_error)
  deriving DecidableEq

/- file.c lines 325-359.  `wall` models cyxchat_timestamp_ms(). -/
def send_next_chunk (wall : Nat) (slot : file_transfer_slot) :
    file_transfer_slot :=
  if slot.has_data = false ∨ slot.chunk_count ≤ slot.chunks_done then slot
  else { slot with chunks_done := slot.chunks_done + 1,
                   updated_at := wall, last_chunk_sent_ms := wall }

/- file.c lines 371-390: the outgoing-send phase of one loop iteration. -/
def file_poll_send_phase (wall now_ms : Nat) (slot : file_transfer_slot) :
    file_transfer_slot × List file_event :=
  if slot.is_outgoing = true ∧ slot.state = cyxchat_file_state.sending then
    if slot.chunks_done < slot.chunk_count then
      if u64sub now_ms slot.last_chunk_sent_ms
          ≥ (if slot.chunks_done = 0 then 0 else 500) then
        (send_next_chunk wall slot, [file_event.chunk_sent])
      else (slot, [])
    else ({ slot with state := cyxchat_file_state.completed },
          [file_event.completed])
  else (slot, [])

/- file.c lines 367-405: one iteration of cyxchat_file_poll for one slot:
the send phase, then the stall check on the possibly updated slot. -/
def cyxchat_file_poll_slot (wall now_ms : Nat) (slot : file_transfer_slot) :
    file_transfer_slot × List file_event :=
  if slot.active = false then (slot, []) else
  let r := file_poll_send_phase wall now_ms slot
  if (r.1.state = cyxchat_file_state.sending ∨
      r.1.state = cyxchat_file_state.receiving) ∧
     u64sub now_ms r.1.updated_at > 60000 then
    ({ r.1 with state := cyxchat_file_state.failed },
     r.2 ++ [file_event.error cyxchat_error.err_timeout])
  else r

/-- Claim C7 (amended): for an active transfer, poll marks it Failed and
fires the Timeout error callback exactly when, after the outgoing-send
phase of the same poll (which may refresh updated_at to the wall clock or
move an all-sent transfer to Completed), the slot is still Sending or
Receiving with updated_at more than 60 s older than now_ms. -/
theorem file_poll_stall (wall now_ms : Nat) (slot : file_transfer_slot)
    (hactive : slot.active = true) :
    ((cyxchat_file_poll_slot wall now_ms slot).1.state
        = cyxchat_file_state.failed ∧
     file_event.error cyxchat_error.err_timeout
        ∈ (cyxchat_file_poll_slot wall now_ms slot).2) ↔
    (((file_poll_send_phase wall now_ms slot).1.state
          = cyxchat_file_state.sending ∨
      (file_poll_send_phase wall now_ms slot).1.state
          = cyxchat_file_state.receiving) ∧
     u64sub now_ms (file_poll_send_phase wall now_ms slot).1.updated_at
        > 60000) := by
  unfold cyxchat_file_poll_slot
  rw [hactive]
  simp only [Bool.true_eq_false, if_false]
  by_cases hst : ((file_poll_send_phase wall now_ms slot).1.state
        = cyxchat_file_state.sending ∨
      (file_poll_send_phase wall now_ms slot).1.state
        = cyxchat_file_state.receiving) ∧
     u64sub now_ms (file_poll_send_phase wall now_ms slot).1.updated_at
        > 60000
  · rw [if_pos hst]
    simp [hst]
  · rw [if_neg hst]
    constructor
    · rintro ⟨hfail, hmem⟩
      exfalso
      unfold file_poll_send_phase at hfail hmem
      by_cases h1 : slot.is_outgoing = true ∧
          slot.state = cyxchat_file_state.sending
      · rw [if_pos h1] at hfail hmem
        by_cases h2 : slot.chunks_done < slot.chunk_count
        · rw [if_pos h2] at hfail hmem
          by_cases h3 : u64sub now_ms slot.last_chunk_sent_ms
              ≥ (if slot.chunks_done = 0 then 0 else 500)
          · rw [if_pos h3] at hmem
            simp at hmem
          · rw [if_neg h3] at hmem
            simp at hmem
        · rw [if_neg h2] at hmem
          simp at hmem
      · rw [if_neg h1] at hmem
        simp at hmem
    · intro h
      exact absurd h hst

/-- Witness for C7 at a concrete slot: an active incoming Receiving
transfer last updated at t=0, polled at now_ms=70000, becomes Failed and
raises the Timeout error. -/
theorem file_poll_stall_witness :
    (cyxchat_file_poll_slot 70000 70000
        { active := true, is_outgoing := false,
          state := cyxchat_file_state.receiving, size := 200,
          chunk_count := 2, chunks_done := 1, updated_at := 0,
          last_chunk_sent_ms := 0, has_data := true }).1.state
      = cyxchat_file_state.failed ∧
    file_event.error cyxchat_error.err_timeout
      ∈ (cyxchat_file_poll_slot 70000 70000
        { active := true, is_outgoing := false,
          state := cyxchat_file_state.receiving, size := 200,
          chunk_count := 2, chunks_done := 1, updated_at := 0,
          last_chunk_sent_ms := 0, has_data := true }).2 :=
  (file_poll_stall 70000 70000
    { active := true, is_outgoing := false,
      state := cyxchat_file_state.receiving, size := 200,
      chunk_count := 2, chunks_done := 1, updated_at := 0,
      last_chunk_sent_ms := 0, has_data := true } (by decide)).mpr
    (by decide)

/-- Counterexample to C7 as stated: an active outgoing Sending transfer
with updated_at = 0, one chunk left, polled at now_ms = 70000 (wall clock
70000), has its updated_at refreshed by the chunk send in the same poll,
so it is NOT marked Failed and no Timeout error fires, even though
updated_at was more than 60 s older than now_ms. -/
theorem file_poll_stall_counterexample :
    (u64sub 70000 (0 : Nat) > 60000) ∧
    ((cyxchat_file_poll_slot 70000 70000
        { active := true, is_outgoing := true,
          state := cyxchat_file_state.sending, size := 200,
          chunk_count := 2, chunks_done := 1, updated_at := 0,
          last_chunk_sent_ms := 0, has_data := true }).1.state
      ≠ cyxchat_file_state.failed) ∧
    (∀ e ∈ (cyxchat_file_poll_slot 70000 70000
        { active := true, is_outgoing := true,
          state := cyxchat_file_state.sending, size := 200,
          chunk_count := 2, chunks_done := 1, updated_at := 0,
          last_chunk_sent_ms := 0, has_data := true }).2,
      e ≠ file_event.error cyxchat_error.err_timeout) := by
  refine ⟨by decide, by decide, by decide⟩
